import Mathlib

/-!
Verification development for the Vermessung work-log application.

The repository's core is embedded shallowly over exact rational arithmetic:

* `pythonRound` models Python's built-in `round` to an integer
  (round half to even), and `round2` models `round(x, 2)`.
* `round_to_step` embeds `round_to_step` from `database.py`.
* `round_fraction` embeds `MainWindow._round_fraction` from `app.py`.
* `calculate_day_fraction` embeds `calculate_day_fraction` from
  `src/utils.py`; times of day are minutes after midnight.
* `interval_day_fraction` embeds the interval branch of
  `LogApp._build_entry_from_form` from `src/main.py`.
* the entry store and the report aggregation over `log_entries`
  (`storage.py`, `database.py`, `vermessung_log/database.py`) are embedded
  as pure functions over a list of `Entry` records; SQL `GROUP BY` /
  `ORDER BY` clauses become key deduplication plus insertion sort by the
  corresponding sort key.

Python's `raise` sites are modelled with `Except PyErr`, naming each error
after the kind it plays in the design's error taxonomy.
-/

namespace Vermessung

/-- Error kinds used by the embedded operations.  Each constructor stands
for a concrete `raise` site in the Python sources (all of them raise
`ValueError` except `zeroDivision`, which stands for the interpreter's
`ZeroDivisionError`). -/
inductive PyErr where
  | invalidTimeRange
  | invalidConfiguration
  | zeroDivision
  | fractionOutOfRange
  | unsupportedField
  deriving DecidableEq

instance {ε α : Type} [DecidableEq ε] [DecidableEq α] : DecidableEq (Except ε α) := fun a b =>
  match a, b with
  | .error e₁, .error e₂ => decidable_of_iff (e₁ = e₂) (by simp)
  | .ok a₁, .ok a₂ => decidable_of_iff (a₁ = a₂) (by simp)
  | .error _, .ok _ => isFalse (by simp)
  | .ok _, .error _ => isFalse (by simp)

/-- Python's built-in `round(q)` to an integer: round half to even. -/
def pythonRound (q : ℚ) : ℤ :=
  if q - ⌊q⌋ < 1/2 then ⌊q⌋
  else if 1/2 < q - ⌊q⌋ then ⌊q⌋ + 1
  else if ⌊q⌋ % 2 = 0 then ⌊q⌋ else ⌊q⌋ + 1

/-- Python's `round(q, 2)`: round to a multiple of 1/100, half to even. -/
def round2 (q : ℚ) : ℚ := ((pythonRound (q * 100) : ℤ) : ℚ) / 100

/-- `round_to_step` from `database.py`:
`if step <= 0: return value`; `rounded = round(value / step) * step`;
`return round(rounded + 1e-9, 2)`. -/
def round_to_step (value : ℚ) (step : ℚ) : ℚ :=
  if step ≤ 0 then value
  else round2 (((pythonRound (value / step) : ℤ) : ℚ) * step + 1/1000000000)

/-- `MainWindow._round_fraction` from `app.py`:
`step = self.rounding_step or ROUNDING_STEP_DEFAULT`;
`rounded = math.ceil(value / step) * step`; `return round(rounded, 2)`.
A falsy (zero) stored step falls back to the default 0.05. -/
def round_fraction (value : ℚ) (rounding_step : ℚ) : ℚ :=
  let step := if rounding_step = 0 then 5/100 else rounding_step
  round2 ((⌈value / step⌉ : ℚ) * step)

/-- Modelled from the spec: `round_to_nearest_multiple(x, step)` as the
spec words it — the multiple of `step` nearest to `x`, with ties rounded
away from zero.  Stated only to compare the spec's policy with the code's
rounding functions. -/
def specRoundNearestTiesUp (x : ℚ) (step : ℚ) : ℚ :=
  if 0 ≤ x then (⌊x / step + 1/2⌋ : ℚ) * step
  else -((⌊-x / step + 1/2⌋ : ℚ) * step)

/-- `calculate_day_fraction` from `src/utils.py`.  `start_t`/`end_t` are
times of day in minutes after midnight.  The code checks `end <= start`,
computes `duration_hours`, checks `workday_hours <= 0`, then returns
`round(round(raw_fraction / step) * step, 2)`.  There is no check on
`step`: `step = 0` fails with `ZeroDivisionError`, a negative step is used
as-is. -/
def calculate_day_fraction (start_t end_t : ℕ) (workday_hours step : ℚ) : Except PyErr ℚ :=
  if end_t ≤ start_t then .error .invalidTimeRange
  else
    let duration_hours : ℚ := ((end_t : ℚ) - (start_t : ℚ)) / 60
    if workday_hours ≤ 0 then .error .invalidConfiguration
    else if step = 0 then .error .zeroDivision
    else .ok (round2 (((pythonRound ((duration_hours / workday_hours) / step) : ℤ) : ℚ) * step))

/-- The interval branch of `LogApp._build_entry_from_form` from
`src/main.py`: the fraction produced by `calculate_day_fraction` is
rejected (`raise ValueError`) when it exceeds 1.0. -/
def interval_day_fraction (start_t end_t : ℕ) (workday_hours step : ℚ) : Except PyErr ℚ :=
  match calculate_day_fraction start_t end_t workday_hours step with
  | .error e => .error e
  | .ok f => if 1 < f then .error .fractionOutOfRange else .ok f

theorem pythonRound_ge (q : ℚ) : q - 1/2 ≤ ((pythonRound q : ℤ) : ℚ) := by
  have hf1 : ((⌊q⌋ : ℤ) : ℚ) ≤ q := Int.floor_le q
  have hf2 : q < ((⌊q⌋ : ℤ) : ℚ) + 1 := Int.lt_floor_add_one q
  unfold pythonRound
  split_ifs with h1 h2 h3 <;> push_cast <;> linarith

theorem pythonRound_le (q : ℚ) : ((pythonRound q : ℤ) : ℚ) ≤ q + 1/2 := by
  have hf1 : ((⌊q⌋ : ℤ) : ℚ) ≤ q := Int.floor_le q
  have hf2 : q < ((⌊q⌋ : ℤ) : ℚ) + 1 := Int.lt_floor_add_one q
  unfold pythonRound
  split_ifs with h1 h2 h3 <;> push_cast <;> linarith

theorem pythonRound_eq_of (q : ℚ) (n : ℤ) (h1 : (n : ℚ) - 1/2 < q)
    (h2 : q < (n : ℚ) + 1/2) : pythonRound q = n := by
  rcases le_or_lt (n : ℚ) q with hq | hq
  · have hfl : ⌊q⌋ = n := by
      rw [Int.floor_eq_iff]
      constructor
      · exact_mod_cast hq
      · linarith
    unfold pythonRound
    rw [hfl]
    have : q - (n : ℚ) < 1/2 := by linarith
    rw [if_pos this]
  · have hfl : ⌊q⌋ = n - 1 := by
      rw [Int.floor_eq_iff]
      constructor
      · push_cast; linarith
      · push_cast; linarith
    unfold pythonRound
    rw [hfl]
    have hgt : 1/2 < q - ((n - 1 : ℤ) : ℚ) := by push_cast; linarith
    rw [if_neg (by push_cast at hgt ⊢; linarith), if_pos (by push_cast at hgt ⊢; linarith)]
    omega

theorem round2_ge (q : ℚ) : q - 1/200 ≤ round2 q := by
  have h := pythonRound_ge (q * 100)
  unfold round2
  linarith

theorem round2_le (q : ℚ) : round2 q ≤ q + 1/200 := by
  have h := pythonRound_le (q * 100)
  unfold round2
  linarith

theorem round2_eq_of (q : ℚ) (m : ℤ) (h1 : (m : ℚ)/100 - 1/200 < q)
    (h2 : q < (m : ℚ)/100 + 1/200) : round2 q = (m : ℚ)/100 := by
  unfold round2
  rw [pythonRound_eq_of (q * 100) m (by linarith) (by linarith)]

theorem round_to_step_pos_eq (x s : ℚ) (hs : 0 < s) :
    round_to_step x s = round2 (((pythonRound (x / s) : ℤ) : ℚ) * s + 1/1000000000) := by
  unfold round_to_step
  rw [if_neg (not_le.mpr hs)]

theorem ceil_as_floor (a : ℚ) : (⌈a⌉ : ℤ) = -⌊-a⌋ := by
  rw [Int.floor_neg, neg_neg]

/-- C1 counterexample.  The claim says the code rounds to the nearest
multiple of `step` with ties away from zero, consistently everywhere.  At
`x = 1/4`, `step = 1/2` the tie rounds to even: `round_to_step` gives `0`
while the spec's policy gives `1/2`.  And `_round_fraction` from `app.py`
does not round to the nearest multiple at all: at `x = 0.51`,
`step = 0.05` it gives `0.55` where the nearest multiple is `0.50`. -/
theorem claim1_rounding_policy_counterexample :
    round_to_step (1/4) (1/2) = 0 ∧ specRoundNearestTiesUp (1/4) (1/2) = 1/2 ∧ (0 : ℚ) ≠ 1/2
    ∧ round_fraction (51/100) (1/20) = 11/20 ∧ specRoundNearestTiesUp (51/100) (1/20) = 1/2
    ∧ (11/20 : ℚ) ≠ 1/2 := by
  refine ⟨?_, ?_, by norm_num, ?_, ?_, by norm_num⟩
  · norm_num [round_to_step, round2, pythonRound]
  · norm_num [specRoundNearestTiesUp]
  · norm_num [round_fraction, round2, pythonRound, ceil_as_floor]
  · norm_num [specRoundNearestTiesUp]

/-- C1 as amended: for `0 < step ≤ 1`, `round_to_step x step` rounds
`x / step` to an integer `k` with `k * step` within `step / 2` of `x` — a
nearest multiple of `step` — and then rounds `k * step + 1e-9` to two
decimal places; but ties go to even rather than away from zero, and the
policy is not applied consistently: `_round_fraction` in `app.py` always
rounds up, producing the next multiple at or above `x`. -/
theorem claim1_rounding_policy_amended (x step : ℚ) (hpos : 0 < step) (_hle : step ≤ 1) :
    (x - step/2 ≤ ((pythonRound (x / step) : ℤ) : ℚ) * step
      ∧ ((pythonRound (x / step) : ℤ) : ℚ) * step ≤ x + step/2)
    ∧ round_to_step x step = round2 (((pythonRound (x / step) : ℤ) : ℚ) * step + 1/1000000000)
    ∧ x ≤ (⌈x / step⌉ : ℚ) * step
    ∧ round_fraction x step = round2 ((⌈x / step⌉ : ℚ) * step) := by
  have hne : step ≠ 0 := ne_of_gt hpos
  have hx : x / step * step = x := div_mul_cancel₀ x hne
  refine ⟨⟨?_, ?_⟩, round_to_step_pos_eq x step hpos, ?_, ?_⟩
  · have h := mul_le_mul_of_nonneg_right (pythonRound_ge (x / step)) hpos.le
    rw [sub_mul, hx] at h
    linarith
  · have h := mul_le_mul_of_nonneg_right (pythonRound_le (x / step)) hpos.le
    rw [add_mul, hx] at h
    linarith
  · have h := mul_le_mul_of_nonneg_right (Int.le_ceil (x / step)) hpos.le
    rw [hx] at h
    exact h
  · simp [round_fraction, hne]

theorem claim1_rounding_policy_amended_witness :
    0 < (1/20 : ℚ) ∧
    (17/16 : ℚ) - (1/20)/2 ≤ ((pythonRound ((17/16) / (1/20)) : ℤ) : ℚ) * (1/20) :=
  ⟨by norm_num, (claim1_rounding_policy_amended (17/16) (1/20) (by norm_num) (by norm_num)).1.1⟩

/-- C3: the interval-mode entry construction rejects any rounded fraction
above 1.0 with the fraction-out-of-range error and never clamps: an `ok`
result is exactly the fraction computed by `calculate_day_fraction` and is
at most 1.  In particular the spec's Scenario B (start 08:00 = 480 min,
end 16:30 = 990 min, workday 8 h, step 0.05) yields the rounded value 1.05
and is rejected. -/
theorem claim3_fraction_out_of_range (start_t end_t : ℕ) (workday_hours step f : ℚ) :
    (calculate_day_fraction start_t end_t workday_hours step = .ok f → 1 < f →
      interval_day_fraction start_t end_t workday_hours step = .error .fractionOutOfRange)
    ∧ (interval_day_fraction start_t end_t workday_hours step = .ok f →
      calculate_day_fraction start_t end_t workday_hours step = .ok f ∧ f ≤ 1)
    ∧ calculate_day_fraction 480 990 8 (1/20) = .ok (21/20)
    ∧ interval_day_fraction 480 990 8 (1/20) = .error .fractionOutOfRange := by
  refine ⟨?_, ?_, ?_, ?_⟩
  · intro hok hgt
    unfold interval_day_fraction
    rw [hok]
    simp [hgt]
  · intro hok
    unfold interval_day_fraction at hok
    cases hcalc : calculate_day_fraction start_t end_t workday_hours step with
    | error e => rw [hcalc] at hok; simp at hok
    | ok g =>
        rw [hcalc] at hok
        by_cases hg : 1 < g
        · simp [hg] at hok
        · simp [hg] at hok
          subst hok
          exact ⟨rfl, le_of_not_lt hg⟩
  · norm_num [calculate_day_fraction, round2, pythonRound]
  · norm_num [interval_day_fraction, calculate_day_fraction, round2, pythonRound]

theorem claim3_fraction_out_of_range_witness :
    calculate_day_fraction 480 990 8 (1/20) = .ok (21/20) ∧
    interval_day_fraction 480 990 8 (1/20) = .error .fractionOutOfRange :=
  ⟨by norm_num [calculate_day_fraction, round2, pythonRound],
   (claim3_fraction_out_of_range 480 990 8 (1/20) (21/20)).1
     (by norm_num [calculate_day_fraction, round2, pythonRound]) (by norm_num)⟩

/-- C4 counterexample.  The claim says `compute` raises
`InvalidConfigurationError` whenever `rounding_step ≤ 0`; but
`calculate_day_fraction` never checks the step: with the negative step
`-0.05` it silently returns the value `0.5` for the interval
08:00-12:00 over an 8-hour workday. -/
theorem claim4_invalid_configuration_counterexample :
    calculate_day_fraction 480 720 8 (-1/20) = .ok (1/2) ∧ (-1/20 : ℚ) < 0 := by
  constructor
  · norm_num [calculate_day_fraction, round2, pythonRound]
  · norm_num

/-- C4 as amended: `calculate_day_fraction` fails with the
invalid-time-range error exactly when `end ≤ start`; when the time range
is valid it fails with the invalid-configuration error exactly when
`workday_hours ≤ 0`; but a non-positive `rounding_step` raises no
configuration error: step `0` fails with `ZeroDivisionError` and a
negative step silently yields a value, while `round_to_step` returns its
input unchanged for any `step ≤ 0`. -/
theorem claim4_error_conditions_amended (start_t end_t : ℕ) (workday_hours step x : ℚ) :
    (calculate_day_fraction start_t end_t workday_hours step = .error .invalidTimeRange
      ↔ end_t ≤ start_t)
    ∧ (start_t < end_t →
        (calculate_day_fraction start_t end_t workday_hours step = .error .invalidConfiguration
          ↔ workday_hours ≤ 0))
    ∧ (start_t < end_t → 0 < workday_hours → step = 0 →
        calculate_day_fraction start_t end_t workday_hours step = .error .zeroDivision)
    ∧ (start_t < end_t → 0 < workday_hours → step < 0 →
        ∃ q, calculate_day_fraction start_t end_t workday_hours step = .ok q)
    ∧ (step ≤ 0 → round_to_step x step = x) := by
  refine ⟨?_, ?_, ?_, ?_, ?_⟩
  · by_cases hc : end_t ≤ start_t
    · simp [calculate_day_fraction, hc]
    · simp only [calculate_day_fraction, if_neg hc]
      split_ifs <;> simp <;> omega
  · intro hlt
    have hc : ¬ end_t ≤ start_t := by omega
    by_cases hw : workday_hours ≤ 0
    · simp [calculate_day_fraction, hc, hw]
    · simp only [calculate_day_fraction, if_neg hc, if_neg hw]
      split_ifs <;> simp [hw]
  · intro hlt hw hstep
    have hc : ¬ end_t ≤ start_t := by omega
    simp [calculate_day_fraction, hc, not_le.mpr hw, hstep]
  · intro hlt hw hstep
    have hc : ¬ end_t ≤ start_t := by omega
    refine ⟨round2 (((pythonRound
      ((((end_t : ℚ) - (start_t : ℚ)) / 60 / workday_hours) / step) : ℤ) : ℚ) * step), ?_⟩
    simp [calculate_day_fraction, hc, not_le.mpr hw, ne_of_lt hstep]
  · intro hstep
    unfold round_to_step
    rw [if_pos hstep]

theorem claim4_error_conditions_amended_witness :
    (480 < 720) ∧ ∃ q, calculate_day_fraction 480 720 8 (-1/20) = .ok q :=
  ⟨by norm_num,
   (claim4_error_conditions_amended 480 720 8 (-1/20) 0).2.2.2.1
     (by norm_num) (by norm_num) (by norm_num)⟩

/-- C9 counterexample.  `round_to_step` is not idempotent for every step
in (0, 1]: with the adversarial step `s = 0.0100000005` and
`x = 9999999 * s`, the first application yields `100000.00` but applying
`round_to_step` to that result yields `100000.01`. -/
theorem claim9_idempotent_counterexample :
    0 < ((20000001 : ℚ)/2000000000) ∧ ((20000001 : ℚ)/2000000000) ≤ 1 ∧
    round_to_step
        (round_to_step ((199999989999999 : ℚ)/2000000000) ((20000001 : ℚ)/2000000000))
        ((20000001 : ℚ)/2000000000)
      ≠ round_to_step ((199999989999999 : ℚ)/2000000000) ((20000001 : ℚ)/2000000000) := by
  refine ⟨by norm_num, by norm_num, ?_⟩
  have h1 : round_to_step ((199999989999999 : ℚ)/2000000000) ((20000001 : ℚ)/2000000000)
      = 100000 := by
    norm_num [round_to_step, round2, pythonRound]
  rw [h1]
  have h2 : round_to_step (100000 : ℚ) ((20000001 : ℚ)/2000000000) = 10000001/100 := by
    norm_num [round_to_step, round2, pythonRound]
  rw [h2]
  norm_num

/-- C9 as amended: `round_to_step` is a pure deterministic function, and
it is idempotent for every step in (0, 1] whose distance from 0.01
exceeds 2e-9 — in particular for every realistic step such as the 0.05
default; only steps within 2e-9 of 0.01 can break idempotence, because
the final rounding to two decimals can then move the value by more than
half a step. -/
theorem claim9_idempotent_amended (x s : ℚ) (hpos : 0 < s) (_hle : s ≤ 1)
    (hwin : s < 1/100 - 1/500000000 ∨ 1/100 + 1/500000000 < s) :
    round_to_step (round_to_step x s) s = round_to_step x s := by
  have hne : s ≠ 0 := ne_of_gt hpos
  rw [round_to_step_pos_eq x s hpos]
  set k : ℤ := pythonRound (x / s) with hk
  set y : ℚ := round2 ((k : ℚ) * s + 1/1000000000) with hy
  rw [round_to_step_pos_eq y s hpos]
  set k2 : ℤ := pythonRound (y / s) with hk2
  have hy1 : (k : ℚ) * s + 1/1000000000 - 1/200 ≤ y := by rw [hy]; exact round2_ge _
  have hy2 : y ≤ (k : ℚ) * s + 1/1000000000 + 1/200 := by rw [hy]; exact round2_le _
  rcases hwin with hsmall | hbig
  · have hb1 := pythonRound_ge (y / s)
    have hb2 := pythonRound_le (y / s)
    rw [← hk2] at hb1 hb2
    have hys : y / s * s = y := div_mul_cancel₀ y hne
    have hc1 : y - s/2 ≤ (k2 : ℚ) * s := by
      have h := mul_le_mul_of_nonneg_right hb1 hpos.le
      rw [sub_mul, hys] at h
      linarith
    have hc2 : (k2 : ℚ) * s ≤ y + s/2 := by
      have h := mul_le_mul_of_nonneg_right hb2 hpos.le
      rw [add_mul, hys] at h
      linarith
    have hy100 : y = ((pythonRound (((k : ℚ) * s + 1/1000000000) * 100) : ℤ) : ℚ) / 100 := by
      rw [hy]; rfl
    rw [hy100]
    apply round2_eq_of
    · rw [← hy100]; linarith
    · rw [← hy100]; linarith
  · have hk2k : k2 = k := by
      rw [hk2]
      apply pythonRound_eq_of
      · rw [lt_div_iff₀ hpos]
        have hexp : ((k : ℚ) - 1/2) * s = (k : ℚ) * s - s/2 := by ring
        rw [hexp]
        linarith
      · rw [div_lt_iff₀ hpos]
        have hexp : ((k : ℚ) + 1/2) * s = (k : ℚ) * s + s/2 := by ring
        rw [hexp]
        linarith
    rw [hk2k]

theorem claim9_idempotent_amended_witness :
    0 < (1/20 : ℚ) ∧
    round_to_step (round_to_step (17/16) (1/20)) (1/20) = round_to_step (17/16) (1/20) :=
  ⟨by norm_num,
   claim9_idempotent_amended (17/16) (1/20) (by norm_num) (by norm_num) (Or.inr (by norm_num))⟩

/-- Calendar dates as stored in the `date` column (`YYYY-MM-DD` text);
comparing the ISO strings of valid dates is comparing `(y, m, d)`
lexicographically. -/
structure YMD where
  y : ℕ
  m : ℕ
  d : ℕ
  deriving DecidableEq

/-- Strict lexicographic order on dates, the order of their ISO strings. -/
abbrev ymdLt (a b : YMD) : Prop :=
  a.y < b.y ∨ (a.y = b.y ∧ (a.m < b.m ∨ (a.m = b.m ∧ a.d < b.d)))

abbrev ymdLe (a b : YMD) : Prop := ymdLt a b ∨ a = b

/-- A row of the `log_entries` table (`storage.py` schema).  Times of day
are minutes after midnight (the `HH:MM` text column compares the same way
as the minute count); `created_at`/`updated_at` are abstract timestamps
ordered as their ISO strings. -/
structure Entry where
  id : ℕ
  date : YMD
  employee : String
  site_name : String
  kst : String
  activity : String
  start_time : Option ℕ
  end_time : Option ℕ
  day_fraction : ℚ
  result : String
  notes : String
  created_at : ℕ
  updated_at : ℕ
  deriving DecidableEq

def monthStart (year month : ℕ) : YMD := ⟨year, month, 1⟩

def nextMonthStart (year month : ℕ) : YMD :=
  if month = 12 then ⟨year + 1, 1, 1⟩ else ⟨year, month + 1, 1⟩

/-- The `WHERE date >= ? AND date < ?` filter used by `monthly_summary`
and `monthly_totals_by_site` in `storage.py`: the half-open range from the
first of the month to the first of the next month. -/
def inMonth (year month : ℕ) (e : Entry) : Bool :=
  decide (ymdLe (monthStart year month) e.date) && decide (ymdLt e.date (nextMonthStart year month))

def monthEntries (entries : List Entry) (year month : ℕ) : List Entry :=
  entries.filter (inMonth year month)

def dailyKey (e : Entry) : YMD × String × String := (e.date, e.site_name, e.kst)

def siteKey (e : Entry) : String × String := (e.site_name, e.kst)

/-- Result row type of `monthly_summary` (the spec's `daily_summary`),
mirroring `MonthlySummaryRow` from `models.py`. -/
structure MonthlySummaryRow where
  date : YMD
  site_name : String
  kst : String
  day_fraction_total : ℚ
  deriving DecidableEq

/-- The `ORDER BY date ASC, site_name ASC` sort key of `monthly_summary`. -/
abbrev summaryKeyLe (a b : YMD × String × String) : Prop :=
  ymdLt a.1 b.1 ∨ (a.1 = b.1 ∧ a.2.1 ≤ b.2.1)

/-- The `ORDER BY site_name ASC` sort key of `monthly_totals_by_site`. -/
abbrev totalsKeyLe (a b : String × String) : Prop := a.1 ≤ b.1

instance : DecidableRel ymdLt :=
  fun _ _ => inferInstanceAs (Decidable (_ ∨ _))

instance : DecidableRel summaryKeyLe :=
  fun _ _ => inferInstanceAs (Decidable (_ ∨ _))

instance : DecidableRel totalsKeyLe :=
  fun _ _ => inferInstanceAs (Decidable (_ ≤ _))

theorem ymd_trichotomy (a b : YMD) : ymdLt a b ∨ a = b ∨ ymdLt b a := by
  obtain ⟨ay, am, ad⟩ := a
  obtain ⟨cy, cm, cd⟩ := b
  simp only [ymdLt, YMD.mk.injEq]
  omega

theorem ymdLt_trans {a b c : YMD} (hab : ymdLt a b) (hbc : ymdLt b c) : ymdLt a c := by
  obtain ⟨ay, am, ad⟩ := a
  obtain ⟨cy, cm, cd⟩ := b
  obtain ⟨ey, em, ed⟩ := c
  simp only [ymdLt] at hab hbc ⊢
  omega

instance : IsTotal (YMD × String × String) summaryKeyLe := by
  constructor
  intro a b
  rcases ymd_trichotomy a.1 b.1 with h | h | h
  · exact Or.inl (Or.inl h)
  · rcases le_total a.2.1 b.2.1 with hs | hs
    · exact Or.inl (Or.inr ⟨h, hs⟩)
    · exact Or.inr (Or.inr ⟨h.symm, hs⟩)
  · exact Or.inr (Or.inl h)

instance : IsTrans (YMD × String × String) summaryKeyLe := by
  constructor
  intro a b c hab hbc
  rcases hab with hab | ⟨hab, has⟩
  · rcases hbc with hbc | ⟨hbc, hbs⟩
    · exact Or.inl (ymdLt_trans hab hbc)
    · exact Or.inl (hbc ▸ hab)
  · rcases hbc with hbc | ⟨hbc, hbs⟩
    · exact Or.inl (hab ▸ hbc)
    · exact Or.inr ⟨hab.trans hbc, has.trans hbs⟩

instance : IsTotal (String × String) totalsKeyLe :=
  ⟨fun a b => le_total a.1 b.1⟩

instance : IsTrans (String × String) totalsKeyLe :=
  ⟨fun _ _ _ hab hbc => le_trans hab hbc⟩

/-- `monthly_summary(year, month)` from `storage.py` (the spec's
`daily_summary`): `SELECT date, site_name, kst, SUM(day_fraction) ...
GROUP BY date, site_name, kst ORDER BY date ASC, site_name ASC` over the
month's entries.  Grouping is one output row per distinct
`(date, site_name, kst)` key; the rows are sorted stably by the `ORDER
BY` key. -/
def monthly_summary (entries : List Entry) (year month : ℕ) : List MonthlySummaryRow :=
  (List.insertionSort summaryKeyLe ((monthEntries entries year month).map dailyKey).dedup).map
    (fun k => ⟨k.1, k.2.1, k.2.2,
      (((monthEntries entries year month).filter (fun e => dailyKey e = k)).map
        Entry.day_fraction).sum⟩)

/-- `monthly_totals_by_site(year, month)` from `storage.py` (the spec's
`monthly_totals`): `SELECT site_name, kst, SUM(day_fraction) ... GROUP BY
site_name, kst ORDER BY site_name ASC` over the same month filter. -/
def monthly_totals_by_site (entries : List Entry) (year month : ℕ) : List (String × String × ℚ) :=
  (List.insertionSort totalsKeyLe ((monthEntries entries year month).map siteKey).dedup).map
    (fun k => (k.1, k.2,
      (((monthEntries entries year month).filter (fun e => siteKey e = k)).map
        Entry.day_fraction).sum))

/-- Sort rank of `start_time IS NULL`: interval-mode rows (a start time
present) rank 0, fraction-mode rows rank 1. -/
def nullRank (e : Entry) : ℕ :=
  match e.start_time with
  | none => 1
  | some _ => 0

/-- Value used when ordering by the `start_time` column; fraction-mode
rows all tie here (and are already separated by `nullRank`). -/
def startVal (e : Entry) : ℕ :=
  match e.start_time with
  | none => 0
  | some t => t

/-- The `ORDER BY start_time IS NULL, start_time, created_at` sort key of
`DatabaseManager.entries_for_date` in `vermessung_log/database.py`. -/
abbrev entryOrderLe (a b : Entry) : Prop :=
  nullRank a < nullRank b
    ∨ (nullRank a = nullRank b
        ∧ (startVal a < startVal b
            ∨ (startVal a = startVal b ∧ a.created_at ≤ b.created_at)))

instance : DecidableRel entryOrderLe :=
  fun _ _ => inferInstanceAs (Decidable (_ ∨ _))

instance : IsTotal Entry entryOrderLe := by
  constructor
  intro a b
  simp only [entryOrderLe]
  omega

instance : IsTrans Entry entryOrderLe := by
  constructor
  intro a b c hab hbc
  simp only [entryOrderLe] at hab hbc ⊢
  omega

/-- `DatabaseManager.entries_for_date` from `vermessung_log/database.py`
(the spec's `list_by_date`): `SELECT * FROM entries WHERE date = ? ORDER
BY start_time IS NULL, start_time, created_at`, a stable sort of the
day's rows by that key. -/
def entries_for_date (entries : List Entry) (d : YMD) : List Entry :=
  List.insertionSort entryOrderLe (entries.filter (fun e => e.date = d))

def allowedColumns : List String := ["site_name", "kst", "activity"]

/-- Column lookup used by the distinct-value queries. -/
def columnValue (column : String) (e : Entry) : String :=
  if column = "site_name" then e.site_name
  else if column = "kst" then e.kst
  else if column = "activity" then e.activity
  else if column = "employee" then e.employee
  else ""

/-- `LogDatabase.get_distinct_values` from `database.py`: raises
`ValueError` (`UnsupportedFieldError` in the taxonomy) unless the column
is one of `site_name`, `kst`, `activity`, then runs `SELECT DISTINCT col
... WHERE col != '' ORDER BY col`. -/
def get_distinct_values (entries : List Entry) (column : String) : Except PyErr (List String) :=
  if column ∈ allowedColumns then
    .ok (List.insertionSort (fun a b : String => a ≤ b)
      (((entries.map (columnValue column)).filter (fun s => s ≠ "")).dedup))
  else .error .unsupportedField

/-- `DatabaseManager.distinct_values` from `vermessung_log/database.py`:
returns `[]` for a field outside `{site_name, kst, activity, employee}`,
otherwise `SELECT DISTINCT field ... WHERE field != ''` with no `ORDER
BY` — values in first-occurrence order. -/
def distinct_values (entries : List Entry) (field : String) : List String :=
  if field ∈ ["site_name", "kst", "activity", "employee"] then
    ((entries.map (columnValue field)).filter (fun s => s ≠ "")).dedup
  else []

/-- `delete_entry` from `storage.py` (identical in `database.py` and
`vermessung_log/database.py`): `DELETE FROM log_entries WHERE id = ?`.
The statement matches zero or more rows and the function checks nothing
and returns `None`; the `Except` layer records that no error path exists
— the result is always `ok`. -/
def delete_entry (entries : List Entry) (entry_id : ℕ) : Except PyErr (List Entry) :=
  .ok (entries.filter (fun e => e.id ≠ entry_id))

/-- Store state: the table rows plus the next `AUTOINCREMENT` id. -/
structure Store where
  entries : List Entry
  nextId : ℕ

/-- `insert_entry` from `storage.py`: appends a row, which receives the
auto-assigned id (`cursor.lastrowid`). -/
def insert_entry (st : Store) (e : Entry) : Store × ℕ :=
  (⟨st.entries ++ [{ e with id := st.nextId }], st.nextId + 1⟩, st.nextId)

/-- The `SELECT * FROM log_entries WHERE id = ?` lookup. -/
def find_entry (entries : List Entry) (entry_id : ℕ) : Option Entry :=
  entries.find? (fun e => e.id = entry_id)

/-- `duplicate_entry` from `storage.py`: fetches the row with the given
id; if absent returns `None` without touching the store; otherwise
inserts a copy with `date = new_date or existing.date`, fresh
`created_at = updated_at = now`, and returns the new id. -/
def duplicate_entry (st : Store) (entry_id : ℕ) (new_date : Option YMD) (now : ℕ) :
    Store × Option ℕ :=
  match find_entry st.entries entry_id with
  | none => (st, none)
  | some existing =>
      let copy : Entry :=
        { existing with date := new_date.getD existing.date, created_at := now, updated_at := now }
      let res := insert_entry st copy
      (res.1, some res.2)

theorem sum_ite_key {K : Type} [DecidableEq K] (P : K → Prop) [DecidablePred P]
    (ks : List K) (hnd : ks.Nodup) (k0 : K) (hk0 : k0 ∈ ks) (c : ℚ) :
    ((ks.filter (fun k => P k)).map (fun k => if k0 = k then c else 0)).sum
      = if P k0 then c else 0 := by
  induction ks with
  | nil => cases hk0
  | cons k ks ih =>
      have hnd' : ks.Nodup := (List.nodup_cons.mp hnd).2
      rcases List.mem_cons.mp hk0 with rfl | hmem
      · have hrest : ((ks.filter fun k => P k).map fun k => if k0 = k then c else 0).sum = 0 := by
          apply List.sum_eq_zero
          intro x hx
          obtain ⟨k, hkmem, rfl⟩ := List.mem_map.mp hx
          have hk : k ∈ ks := List.mem_of_mem_filter hkmem
          have hne : k0 ≠ k := fun h => (List.nodup_cons.mp hnd).1 (h ▸ hk)
          rw [if_neg hne]
        by_cases hP : P k0
        · rw [if_pos hP, List.filter_cons_of_pos (by simpa using hP), List.map_cons,
            List.sum_cons, if_pos rfl, hrest, add_zero]
        · rw [if_neg hP, List.filter_cons_of_neg (by simpa using hP), hrest]
      · have hne : k0 ≠ k := fun h => (List.nodup_cons.mp hnd).1 (h ▸ hmem)
        by_cases hPk : P k
        · rw [List.filter_cons_of_pos (by simpa using hPk), List.map_cons, List.sum_cons,
            if_neg hne, zero_add]
          exact ih hnd' hmem
        · rw [List.filter_cons_of_neg (by simpa using hPk)]
          exact ih hnd' hmem

theorem sum_fiberwise_of_keys {α K : Type} [DecidableEq K] (f : α → K) (g : α → ℚ)
    (P : K → Prop) [DecidablePred P] :
    ∀ (l : List α) (ks : List K), ks.Nodup → (∀ a ∈ l, f a ∈ ks) →
      ((ks.filter (fun k => P k)).map
        (fun k => ((l.filter (fun a => f a = k)).map g).sum)).sum
      = ((l.filter (fun a => P (f a))).map g).sum := by
  intro l
  induction l with
  | nil => intro ks _ _; simp
  | cons a l ih =>
      intro ks hnd hcov
      have hfa : f a ∈ ks := hcov a (List.mem_cons_self a l)
      have hcov' : ∀ x ∈ l, f x ∈ ks := fun x hx => hcov x (List.mem_cons_of_mem a hx)
      have hinner : ∀ k : K, (((a :: l).filter (fun x => f x = k)).map g).sum
          = (if f a = k then g a else 0) + ((l.filter (fun x => f x = k)).map g).sum := by
        intro k
        by_cases hk : f a = k
        · rw [List.filter_cons_of_pos (by simpa using hk), List.map_cons, List.sum_cons,
            if_pos hk]
        · rw [List.filter_cons_of_neg (by simpa using hk), if_neg hk, zero_add]
      rw [List.map_congr_left (fun k _ => hinner k), List.sum_map_add,
        sum_ite_key P ks hnd (f a) hfa (g a), ih ks hnd hcov']
      by_cases hPa : P (f a)
      · rw [if_pos hPa, List.filter_cons_of_pos (by simpa using hPa), List.map_cons,
          List.sum_cons]
      · rw [if_neg hPa, List.filter_cons_of_neg (by simpa using hPa), zero_add]

theorem mapped_rows_filter_sum {K R : Type} (ks : List K) (rowOf : K → R)
    (p : R → Prop) [DecidablePred p] (v : R → ℚ) :
    (((ks.map rowOf).filter (fun r => p r)).map v).sum
      = ((ks.filter (fun k => p (rowOf k))).map (fun k => v (rowOf k))).sum := by
  rw [List.filter_map, List.map_map]
  rfl

theorem perm_filter_map_sum {K : Type} {l₁ l₂ : List K} (h : l₁.Perm l₂)
    (p : K → Prop) [DecidablePred p] (v : K → ℚ) :
    ((l₁.filter (fun k => p k)).map v).sum = ((l₂.filter (fun k => p k)).map v).sum :=
  ((h.filter _).map v).sum_eq

/-- C2: the reconciliation invariant.  For every store content, month and
`(site_name, kst)` pair, the total reported for that pair by
`monthly_totals_by_site` equals the sum of the `fraction_sum` values of
all `monthly_summary` rows of that month carrying the same pair (both
sides are sums over filtered output rows, so a pair absent from the
reports contributes `0 = 0`). -/
theorem claim2_reconciliation (entries : List Entry) (year month : ℕ) (site kst : String) :
    (((monthly_totals_by_site entries year month).filter
        (fun r => r.1 = site ∧ r.2.1 = kst)).map (fun r => r.2.2)).sum
      = (((monthly_summary entries year month).filter
        (fun r => r.site_name = site ∧ r.kst = kst)).map MonthlySummaryRow.day_fraction_total).sum := by
  unfold monthly_totals_by_site monthly_summary
  rw [mapped_rows_filter_sum, mapped_rows_filter_sum,
    perm_filter_map_sum (List.perm_insertionSort totalsKeyLe _),
    perm_filter_map_sum (List.perm_insertionSort summaryKeyLe _),
    sum_fiberwise_of_keys siteKey Entry.day_fraction _ (monthEntries entries year month) _
      (List.nodup_dedup _) (fun e he => List.mem_dedup.mpr (List.mem_map_of_mem _ he)),
    sum_fiberwise_of_keys dailyKey Entry.day_fraction _ (monthEntries entries year month) _
      (List.nodup_dedup _) (fun e he => List.mem_dedup.mpr (List.mem_map_of_mem _ he))]
  dsimp only [siteKey, dailyKey]

theorem map_key_of_summary_row (L : List Entry) (ks : List (YMD × String × String)) :
    ((ks.map (fun k => (⟨k.1, k.2.1, k.2.2,
      ((L.filter (fun e => dailyKey e = k)).map Entry.day_fraction).sum⟩ : MonthlySummaryRow))).map
        (fun r => (r.date, r.site_name, r.kst))) = ks := by
  induction ks with
  | nil => rfl
  | cons k ks ih =>
      obtain ⟨a, b, c⟩ := k
      simp only [List.map_cons]
      rw [ih]

/-- C5: `monthly_summary` (the spec's `daily_summary`) groups the month's
entries by the `(date, site_name, kst)` triple — its rows are keyed by
exactly the distinct triples of the month —, every row carries the sum of
`day_fraction` over its group, and the rows are sorted ascending by
`(date, site_name)`. -/
theorem claim5_daily_summary (entries : List Entry) (year month : ℕ) :
    ((monthly_summary entries year month).map (fun r => (r.date, r.site_name, r.kst))).Perm
        ((monthEntries entries year month).map dailyKey).dedup
    ∧ List.Pairwise (fun a b : MonthlySummaryRow =>
        ymdLt a.date b.date ∨ (a.date = b.date ∧ a.site_name ≤ b.site_name))
        (monthly_summary entries year month)
    ∧ ∀ r ∈ monthly_summary entries year month,
        r.day_fraction_total
          = (((monthEntries entries year month).filter
              (fun e => dailyKey e = (r.date, r.site_name, r.kst))).map Entry.day_fraction).sum := by
  refine ⟨?_, ?_, ?_⟩
  · unfold monthly_summary
    rw [map_key_of_summary_row]
    exact List.perm_insertionSort _ _
  · have hs := List.sorted_insertionSort summaryKeyLe
      ((monthEntries entries year month).map dailyKey).dedup
    exact List.Pairwise.map _ (fun a b h => h) hs
  · intro r hr
    unfold monthly_summary at hr
    obtain ⟨k, hk, rfl⟩ := List.mem_map.mp hr
    obtain ⟨a, b, c⟩ := k
    rfl

def sampleEntryA : Entry :=
  ⟨1, ⟨2024, 6, 3⟩, "M", "A", "100", "t", some 480, some 720, 1/2, "r", "", 10, 10⟩

def sampleEntryB : Entry :=
  ⟨2, ⟨2024, 6, 3⟩, "M", "A", "100", "t", none, none, 1/4, "r", "", 11, 11⟩

def sampleEntryC : Entry :=
  ⟨3, ⟨2024, 6, 3⟩, "M", "B", "200", "t", some 400, some 500, 1/4, "r", "", 9, 9⟩

theorem claim5_daily_summary_witness :
    (⟨⟨2024, 6, 3⟩, "A", "100", 3/4⟩ : MonthlySummaryRow)
        ∈ monthly_summary [sampleEntryA, sampleEntryB] 2024 6
    ∧ (3/4 : ℚ) = (((monthEntries [sampleEntryA, sampleEntryB] 2024 6).filter
        (fun e => dailyKey e = (⟨2024, 6, 3⟩, "A", "100"))).map Entry.day_fraction).sum := by
  have hmem : (⟨⟨2024, 6, 3⟩, "A", "100", 3/4⟩ : MonthlySummaryRow)
      ∈ monthly_summary [sampleEntryA, sampleEntryB] 2024 6 := by
    norm_num [monthly_summary, monthEntries, inMonth, dailyKey, sampleEntryA, sampleEntryB,
      monthStart, nextMonthStart, List.insertionSort, List.orderedInsert, List.dedup,
      List.filter, ymdLe, ymdLt]
  exact ⟨hmem, (claim5_daily_summary [sampleEntryA, sampleEntryB] 2024 6).2.2 _ hmem⟩

/-- C6: `entries_for_date` (the spec's `list_by_date`) returns exactly the
date's entries, ordered so that fraction-mode entries (no `start_time`)
come after all interval-mode entries, interval-mode entries are in
ascending `start_time` order, and entries with the same `start_time`
value are in creation (`created_at`) order; the result is a pure function
of the stored data, so the ordering is reproducible. -/
theorem claim6_list_by_date_order (entries : List Entry) (d : YMD) :
    (entries_for_date entries d).Perm (entries.filter (fun e => e.date = d))
    ∧ List.Pairwise (fun a b : Entry => a.start_time = none → b.start_time = none)
        (entries_for_date entries d)
    ∧ List.Pairwise (fun a b : Entry =>
        ∀ ta tb, a.start_time = some ta → b.start_time = some tb → ta ≤ tb)
        (entries_for_date entries d)
    ∧ List.Pairwise (fun a b : Entry => a.start_time = b.start_time → a.created_at ≤ b.created_at)
        (entries_for_date entries d) := by
  have hs := List.sorted_insertionSort entryOrderLe (entries.filter (fun e => e.date = d))
  refine ⟨List.perm_insertionSort _ _, hs.imp ?_, hs.imp ?_, hs.imp ?_⟩
  · intro a b h ha
    cases hbs : b.start_time with
    | none => rfl
    | some t =>
        exfalso
        have h1 : nullRank a = 1 := by simp [nullRank, ha]
        have h2 : nullRank b = 0 := by simp [nullRank, hbs]
        rcases h with h | ⟨h, _⟩ <;> omega
  · intro a b h ta tb hta htb
    have h1 : nullRank a = 0 := by simp [nullRank, hta]
    have h2 : nullRank b = 0 := by simp [nullRank, htb]
    have h3 : startVal a = ta := by simp [startVal, hta]
    have h4 : startVal b = tb := by simp [startVal, htb]
    rcases h with h | ⟨_, h | ⟨h, _⟩⟩ <;> omega
  · intro a b h heq
    have h1 : nullRank a = nullRank b := by simp [nullRank, heq]
    have h2 : startVal a = startVal b := by simp [startVal, heq]
    rcases h with h | ⟨_, h | ⟨_, h⟩⟩ <;> omega

theorem claim6_list_by_date_order_witness :
    (entries_for_date [sampleEntryB, sampleEntryA, sampleEntryC] ⟨2024, 6, 3⟩).Perm
      ([sampleEntryB, sampleEntryA, sampleEntryC].filter (fun e => e.date = ⟨2024, 6, 3⟩)) :=
  (claim6_list_by_date_order [sampleEntryB, sampleEntryA, sampleEntryC] ⟨2024, 6, 3⟩).1

/-- C7 counterexample.  The claim says deleting a nonexistent id fails
with `NotFoundError` and never succeeds as a no-op; but the code runs a
bare `DELETE ... WHERE id = ?` with no existence check: on a store whose
only entry has id 1, deleting id 5 succeeds and leaves the store
unchanged. -/
theorem claim7_delete_not_found_counterexample :
    delete_entry [sampleEntryA] 5 = .ok [sampleEntryA]
    ∧ 5 ∉ [sampleEntryA].map Entry.id := by
  constructor
  · norm_num [delete_entry, sampleEntryA, List.filter]
  · norm_num [sampleEntryA]

/-- C7 as amended: `delete_entry` always succeeds — it removes the
entries carrying the given id and, when no stored entry has that id,
silently returns the store unchanged; no `NotFoundError` is ever
raised. -/
theorem claim7_delete_silent_amended (entries : List Entry) (entry_id : ℕ) :
    delete_entry entries entry_id = .ok (entries.filter (fun e => e.id ≠ entry_id))
    ∧ (entry_id ∉ entries.map Entry.id → delete_entry entries entry_id = .ok entries) := by
  constructor
  · rfl
  · intro habs
    unfold delete_entry
    congr 1
    apply List.filter_eq_self.mpr
    intro a ha
    have hne : a.id ≠ entry_id := fun h => habs (h ▸ List.mem_map_of_mem Entry.id ha)
    simpa using hne

theorem claim7_delete_silent_amended_witness :
    5 ∉ [sampleEntryA].map Entry.id ∧ delete_entry [sampleEntryA] 5 = .ok [sampleEntryA] :=
  ⟨by norm_num [sampleEntryA],
   (claim7_delete_silent_amended [sampleEntryA] 5).2 (by norm_num [sampleEntryA])⟩

/-- C8 counterexample.  The claim says `distinct_values(field)` succeeds
for all of `site_name`, `kst`, `activity`, `employee` in ascending order
and fails with `UnsupportedFieldError` otherwise.  But
`LogDatabase.get_distinct_values` rejects `employee` like any unknown
column; and `DatabaseManager.distinct_values` silently returns `[]` for
an unsupported field and returns supported fields unsorted
(first-occurrence order `["B", "A"]`). -/
theorem claim8_distinct_values_counterexample :
    get_distinct_values [] "employee" = .error .unsupportedField
    ∧ distinct_values [] "foo" = []
    ∧ distinct_values [sampleEntryC, sampleEntryA] "site_name" = ["B", "A"] := by
  refine ⟨?_, ?_, ?_⟩ <;> decide

/-- C8 as amended: `get_distinct_values` supports exactly
`{site_name, kst, activity}` — `employee` is rejected with the
unsupported-field error like any other column — and for a supported
column returns the distinct non-empty values of that column in ascending
order; the `DatabaseManager` variant additionally returns `[]` instead of
failing for a field outside its supported set. -/
theorem claim8_distinct_values_amended (entries : List Entry) (column : String) :
    (column ∈ allowedColumns →
      ∃ vs, get_distinct_values entries column = .ok vs
        ∧ List.Pairwise (fun a b : String => a ≤ b) vs
        ∧ vs.Perm ((entries.map (columnValue column)).filter (fun s => s ≠ "")).dedup
        ∧ vs.Nodup)
    ∧ (column ∉ allowedColumns → get_distinct_values entries column = .error .unsupportedField)
    ∧ (column ∉ ["site_name", "kst", "activity", "employee"] → distinct_values entries column = []) := by
  refine ⟨?_, ?_, ?_⟩
  · intro hmem
    refine ⟨List.insertionSort (fun a b : String => a ≤ b)
        (((entries.map (columnValue column)).filter (fun s => s ≠ "")).dedup), ?_, ?_, ?_, ?_⟩
    · unfold get_distinct_values
      rw [if_pos hmem]
    · exact List.sorted_insertionSort _ _
    · exact List.perm_insertionSort _ _
    · exact (List.perm_insertionSort (fun a b : String => a ≤ b) _).symm.nodup
        (List.nodup_dedup _)
  · intro hmem
    unfold get_distinct_values
    rw [if_neg hmem]
  · intro hmem
    unfold distinct_values
    rw [if_neg hmem]

theorem claim8_distinct_values_amended_witness :
    "site_name" ∈ allowedColumns
    ∧ ∃ vs, get_distinct_values [sampleEntryA] "site_name" = .ok vs
        ∧ List.Pairwise (fun a b : String => a ≤ b) vs
        ∧ vs.Perm (([sampleEntryA].map (columnValue "site_name")).filter (fun s => s ≠ "")).dedup
        ∧ vs.Nodup :=
  ⟨by norm_num [allowedColumns],
   (claim8_distinct_values_amended [sampleEntryA] "site_name").1 (by norm_num [allowedColumns])⟩

/-- C10: `duplicate_entry` on an id absent from the store returns `None`
and leaves the store untouched, raising nothing; on a present id it
appends exactly one new entry equal to the original except that the date
is `new_date` (when given, else the original date), the id is the freshly
assigned one, and both timestamps are the current time — and the original
entry is still stored unchanged. -/
theorem claim10_duplicate_entry (st : Store) (entry_id : ℕ) (new_date : Option YMD) (now : ℕ) :
    (find_entry st.entries entry_id = none →
      duplicate_entry st entry_id new_date now = (st, none))
    ∧ (∀ existing, find_entry st.entries entry_id = some existing →
        (duplicate_entry st entry_id new_date now).1.entries
            = st.entries ++
              [{ existing with
                  date := new_date.getD existing.date,
                  id := st.nextId,
                  created_at := now,
                  updated_at := now }]
          ∧ (duplicate_entry st entry_id new_date now).2 = some st.nextId
          ∧ (duplicate_entry st entry_id new_date now).1.nextId = st.nextId + 1
          ∧ existing ∈ (duplicate_entry st entry_id new_date now).1.entries) := by
  constructor
  · intro h
    unfold duplicate_entry
    rw [h]
  · intro ex h
    unfold duplicate_entry
    rw [h]
    refine ⟨rfl, rfl, rfl, ?_⟩
    unfold find_entry at h
    exact List.mem_append_left _ (List.mem_of_find?_eq_some h)

theorem claim10_duplicate_entry_witness :
    find_entry [sampleEntryA] 1 = some sampleEntryA
    ∧ (duplicate_entry ⟨[sampleEntryA], 2⟩ 1 (some ⟨2024, 6, 4⟩) 20).1.entries
        = [sampleEntryA] ++
          [{ sampleEntryA with
              date := (some (⟨2024, 6, 4⟩ : YMD)).getD sampleEntryA.date,
              id := 2,
              created_at := 20,
              updated_at := 20 }] := by
  have hfind : find_entry [sampleEntryA] 1 = some sampleEntryA := by
    norm_num [find_entry, List.find?, sampleEntryA]
  exact ⟨hfind,
    ((claim10_duplicate_entry ⟨[sampleEntryA], 2⟩ 1 (some ⟨2024, 6, 4⟩) 20).2
      sampleEntryA hfind).1⟩

end Vermessung
